import Mathlib

/-!
Verification of the OCI registry integration crate (`crates/oci/src/lib.rs`):
a shallow embedding of `Client::push` (bundling an application into layers),
`Client::pull` (cache-aware layer fetching), `Client::login` and the
credential-resolution chain (`Client::auth`, `AuthConfig`), together with
theorems about them.

Modelling conventions:
- Rust strings are lists of characters, byte buffers are lists of naturals.
- External collaborators (file system, registry transport, URL parsing, the
  Docker credential helper, the live login handshake) are environment records
  of pure functions; `none` models the corresponding `Err`/failure.
- Fallible Rust functions returning `anyhow::Result` become `Except`.
-/

set_option autoImplicit false

namespace SpinOci

/-- Rust strings (`String`/`&str`) are modelled as lists of characters. -/
abbrev Str := List Char

/-- First-match lookup in an association table; models map lookup for a map
represented as a list whose most recent binding comes first. -/
def lookupTable {α : Type} : List (Str × α) → Str → Option α
  | [], _ => none
  | (k, v) :: rest, key => if k = key then some v else lookupTable rest key

/-! ### Base64 and the string codec

`AuthConfig::insert` stores `base64(username:password)` using the external
`base64` crate (standard alphabet, with padding), and
`AuthConfig::get_auth_from_default` decodes it back through
`std::str::from_utf8`. The base64 codec is implemented here; the UTF-8
string/byte codec is modelled by a fixed-width injective character encoding
with the same round-trip and decode-failure behaviour. -/

/-- The 64 characters of the standard base64 alphabet. -/
def b64Alphabet : Str :=
  "ABCDEFGHIJKLMNOPQRSTUVWXYZabcdefghijklmnopqrstuvwxyz0123456789+/".data

/-- Character for a base64 sextet value. -/
def sextetChar (n : Nat) : Char := b64Alphabet.getD n 'A'

/-- Index of the first occurrence of a character in a list. -/
def indexIn (c : Char) : List Char → Option Nat
  | [] => none
  | x :: xs => if x = c then some 0 else (indexIn c xs).map (· + 1)

/-- Sextet value of a base64 character; `none` when it is not in the alphabet. -/
def charSextet (c : Char) : Option Nat := indexIn c b64Alphabet

/-- Base64-encode a byte sequence (standard alphabet, with padding). -/
def b64e : List Nat → List Char
  | a :: b :: c :: rest =>
    sextetChar (a / 4) :: sextetChar (a % 4 * 16 + b / 16) ::
      sextetChar (b % 16 * 4 + c / 64) :: sextetChar (c % 64) :: b64e rest
  | [a, b] => [sextetChar (a / 4), sextetChar (a % 4 * 16 + b / 16), sextetChar (b % 16 * 4), '=']
  | [a] => [sextetChar (a / 4), sextetChar (a % 4 * 16), '=', '=']
  | [] => []

/-- Base64-decode; `none` on malformed input (bad length, character outside the
alphabet, or padding anywhere but the end). -/
def b64d : List Char → Option (List Nat)
  | [] => some []
  | c1 :: c2 :: c3 :: c4 :: rest =>
    if c4 = '=' ∧ rest = [] then
      match charSextet c1, charSextet c2 with
      | some s1, some s2 =>
        if c3 = '=' then some [s1 * 4 + s2 / 16]
        else
          match charSextet c3 with
          | some s3 => some [s1 * 4 + s2 / 16, s2 % 16 * 16 + s3 / 4]
          | none => none
      | _, _ => none
    else
      match charSextet c1, charSextet c2, charSextet c3, charSextet c4 with
      | some s1, some s2, some s3, some s4 =>
        (b64d rest).map
          (fun tl => (s1 * 4 + s2 / 16) :: (s2 % 16 * 16 + s3 / 4) :: (s3 % 4 * 64 + s4) :: tl)
      | _, _, _, _ => none
  | _ => none

/-- Modelled: the byte encoding of one character. The source stores Rust
strings (UTF-8); the codec is modelled as a fixed-width injective
character-to-bytes encoding with the same round-trip behaviour. -/
def charToBytes (c : Char) : List Nat := [c.toNat / 65536, c.toNat / 256 % 256, c.toNat % 256]

/-- Byte sequence of a string under the modelled codec. -/
def strBytes : List Char → List Nat
  | [] => []
  | c :: cs => charToBytes c ++ strBytes cs

/-- Decode bytes back to a string; `none` on malformed input (models a
`std::str::from_utf8` failure). -/
def bytesStr : List Nat → Option (List Char)
  | [] => some []
  | b1 :: b2 :: b3 :: rest =>
    let n := b1 * 65536 + b2 * 256 + b3
    if n < 55296 ∨ (57344 ≤ n ∧ n < 1114112) then
      (bytesStr rest).map (fun cs => Char.ofNat n :: cs)
    else none
  | _ => none

/-- Models Rust `str::splitn(2, sep)` collected into a vector: the part before
the first separator, and `some` remainder exactly when a separator occurs. -/
def splitn2 (sep : Char) : List Char → List Char × Option (List Char)
  | [] => ([], none)
  | c :: cs =>
    if c = sep then ([], some cs)
    else
      let r := splitn2 sep cs
      (c :: r.1, r.2)

/-! ### Credential store (`AuthConfig`, `Client::auth`, `Client::login`) -/

/-- `oci_distribution::secrets::RegistryAuth`. -/
inductive RegistryAuth
  | anonymous
  | basic (username password : Str)
deriving DecidableEq, Repr

/-- `docker_credential::DockerCredential`, the OS-level credential lookup result. -/
inductive DockerCredential
  | usernamePassword (username password : Str)
  | identityToken (token : Str)
deriving DecidableEq, Repr

/-- `struct AuthConfig`: the persisted credential table, a map from registry
server to base64-encoded `username:password`. -/
structure AuthConfig where
  auths : List (Str × Str)
deriving DecidableEq, Repr

/-- The encoded value stored by `AuthConfig::insert`:
`base64(format!("{}:{}", username, password))`. -/
def encodeCred (username password : Str) : Str := b64e (strBytes (username ++ ':' :: password))

/-- `AuthConfig::insert`: store the encoded credential under the server key
(map insert; the newest binding shadows any older one). -/
def AuthConfig.insert (a : AuthConfig) (server username password : Str) : AuthConfig :=
  ⟨(server, encodeCred username password) :: a.auths⟩

/-- `AuthConfig::get_auth_from_default`: look up the host's entry, base64-decode
it, decode the bytes to a string and split it at the first `:`; a missing
entry, a base64 or string decode failure, or a missing separator is an error. -/
def AuthConfig.getAuthFromDefault (a : AuthConfig) (server : Str) : Except Unit RegistryAuth :=
  match lookupTable a.auths server with
  | none => .error ()
  | some encoded =>
    match b64d encoded with
    | none => .error ()
    | some bytes =>
      match bytesStr bytes with
      | none => .error ()
      | some decoded =>
        match (splitn2 ':' decoded).2 with
        | none => .error ()
        | some secret => .ok (.basic (splitn2 ':' decoded).1 secret)

/-- Remove one trailing `/` (`str::strip_suffix` in `Client::auth`). -/
def stripSuffixSlash (s : Str) : Str := if s.getLast? = some '/' then s.dropLast else s

/-- `Client::auth`: resolve credentials for a registry host — the stored entry
first, then the Docker credential helper, then anonymous. `docker` is the
outcome of the external `docker_credential::get_credential` call for this
host (`none` models `Err`). -/
def authResolve (a : AuthConfig) (docker : Option DockerCredential) (registry : Str) :
    Except Unit RegistryAuth :=
  let server := stripSuffixSlash registry
  match a.getAuthFromDefault server with
  | .ok c => .ok c
  | .error _ =>
    match docker with
    | none => .ok .anonymous
    | some (.usernamePassword u p) => .ok (.basic u p)
    | some (.identityToken _) => .ok .anonymous

/-- Environment for `Client::login`: the URL parse of the server argument
(external `reqwest::Url::parse`; `none` models a parse error, `some h` a
parsed URL whose `host_str()` is `h`), and the outcome of the live
credential-validation handshake (`Client::validate_credentials`, an external
registry interaction). -/
structure LoginEnv where
  urlHost : Str → Option (Option Str)
  validate : Str → Str → Str → Bool

/-- Server normalization in `Client::login`: a parsed URL contributes its host
(falling back to the raw string when it has none); a parse error keeps the
raw server string. -/
def normalizeServer (env : LoginEnv) (server : Str) : Str :=
  match env.urlHost server with
  | some (some h) => h
  | some none => server
  | none => server

/-- `Client::login`: normalize the server, validate the credentials live, and
only on success insert the encoded entry into the loaded table and save it.
The returned table is the persisted state; the save I/O itself is external. -/
def login (env : LoginEnv) (persisted : AuthConfig) (server username password : Str) :
    Except Unit AuthConfig :=
  let server := normalizeServer env server
  if env.validate server username password then
    .ok (persisted.insert server username password)
  else .error ()

/-! ### Push (`Client::push` and its bundling stage) -/

/-- `spin_app::locked::ContentRef`. -/
structure ContentRef where
  source : Option Str
  digest : Option Str
deriving DecidableEq, Repr

/-- `spin_app::locked::ContentPath`. -/
structure ContentPath where
  content : ContentRef
  path : Str
deriving DecidableEq, Repr

/-- A locked component as used by `Client::push`: the module source reference
(`c.source.content`) and the file mounts. -/
structure LockedComponent where
  source : ContentRef
  files : List ContentPath
deriving DecidableEq, Repr

/-- The locked application: components plus the metadata mapping (keys are
unique; values are modelled as strings). -/
structure LockedApp where
  components : List LockedComponent
  metadata : List (Str × Str)
deriving DecidableEq, Repr

/-- `oci_distribution::client::ImageLayer`: raw bytes plus a media type. -/
structure ImageLayer where
  data : List Nat
  mediaType : Str
deriving DecidableEq, Repr

def WASM_LAYER_MEDIA_TYPE : Str := "application/vnd.wasm.content.layer.v1+wasm".data

def DATA_MEDIATYPE : Str := "application/vnd.wasm.content.layer.v1+data".data

def SPIN_APPLICATION_MEDIA_TYPE : Str := "application/vnd.fermyon.spin.application.v1+config".data

/-- Hex digit character. -/
def hexDigit (n : Nat) : Char := "0123456789abcdef".data.getD n '0'

/-- Hex dump of one byte. -/
def hexByte (b : Nat) : List Char := [hexDigit (b / 16 % 16), hexDigit (b % 16)]

/-- Modelled: the sha-256 content digest from the external oci-distribution
crate — an opaque deterministic content hash. Modelled as an executable
stand-in (a hex dump of the bytes); every claim uses only that the digest is
a function of the layer's bytes. -/
def sha256Digest : List Nat → Str
  | [] => []
  | b :: bs => hexByte b ++ sha256Digest bs

/-- `ImageLayer::sha256_digest`. -/
def ImageLayer.sha256Dig (l : ImageLayer) : Str := sha256Digest l.data

/-- A directory entry met during the `WalkDir` traversal of a mount. -/
structure DirEntry where
  path : Str
  isFile : Bool
  isDir : Bool
deriving DecidableEq, Repr

/-- File-system environment of `Client::push`: URL parsing
(`spin_trigger::parse_file_url`), file reads (`tokio::fs::read`), the
directory walk (`walkdir::WalkDir`) and relative-path computation
(`spin_loader::to_relative`); `none` models the corresponding failure. -/
structure Env where
  parseFileUrl : Str → Option Str
  readFile : Str → Option (List Nat)
  walk : Str → List DirEntry
  toRelative : Str → Str → Option Str

/-- Failure surfaces of `Client::push`. -/
inductive PushError
  | parseReference
  | authError
  | missingModuleSource
  | missingFileSource
  | parseUrl
  | readFile
  | toRelative
  | transport
deriving DecidableEq, Repr

/-- `Client::wasm_layer`: read the module file, wrap it as a wasm layer. -/
def wasmLayer (env : Env) (file : Str) : Option ImageLayer :=
  (env.readFile file).map (fun bytes => ⟨bytes, WASM_LAYER_MEDIA_TYPE⟩)

/-- `Client::data_layer`: read a static asset, wrap it as a data layer. -/
def dataLayer (env : Env) (file : Str) : Option ImageLayer :=
  (env.readFile file).map (fun bytes => ⟨bytes, DATA_MEDIATYPE⟩)

/-- One `WalkDir` entry inside a mount: a regular file produces a data layer
and a rewritten `ContentPath` (digest set, source cleared, path relative to
the mount root); any other entry is skipped. -/
def bundleEntry (env : Env) (src : Str) (e : DirEntry) :
    Except PushError (Option (ContentPath × ImageLayer)) :=
  if e.isFile = true ∧ e.isDir = false then
    match dataLayer env e.path with
    | none => .error .readFile
    | some layer =>
      match env.toRelative e.path src with
      | none => .error .toRelative
      | some rel => .ok (some (⟨⟨none, some layer.sha256Dig⟩, rel⟩, layer))
  else .ok none

/-- The `WalkDir` loop over one mount directory's entries. -/
def bundleEntryList (env : Env) (src : Str) :
    List DirEntry → Except PushError (List ContentPath × List ImageLayer)
  | [] => .ok ([], [])
  | e :: es =>
    match bundleEntry env src e with
    | .error err => .error err
    | .ok none => bundleEntryList env src es
    | .ok (some (f, l)) =>
      match bundleEntryList env src es with
      | .error err => .error err
      | .ok (fs, ls) => .ok (f :: fs, l :: ls)

/-- One file mount of a component: require a local source, parse it to a
directory path, and traverse the directory. -/
def bundleMount (env : Env) (f : ContentPath) :
    Except PushError (List ContentPath × List ImageLayer) :=
  match f.content.source with
  | none => .error .missingFileSource
  | some url =>
    match env.parseFileUrl url with
    | none => .error .parseUrl
    | some src => bundleEntryList env src (env.walk src)

/-- The loop over all file mounts of a component, concatenating the rewritten
file entries and the layers in order. -/
def bundleMounts (env : Env) : List ContentPath → Except PushError (List ContentPath × List ImageLayer)
  | [] => .ok ([], [])
  | f :: fs =>
    match bundleMount env f with
    | .error err => .error err
    | .ok (a, la) =>
      match bundleMounts env fs with
      | .error err => .error err
      | .ok (b, lb) => .ok (a ++ b, la ++ lb)

/-- One component of the bundling loop of `Client::push`: require a module
source, read it as a wasm layer, rewrite the module reference to its digest,
then process the file mounts. -/
def bundleComponent (env : Env) (c : LockedComponent) :
    Except PushError (LockedComponent × List ImageLayer) :=
  match c.source.source with
  | none => .error .missingModuleSource
  | some url =>
    match env.parseFileUrl url with
    | none => .error .parseUrl
    | some src =>
      match wasmLayer env src with
      | none => .error .readFile
      | some layer =>
        match bundleMounts env c.files with
        | .error err => .error err
        | .ok (files, fl) =>
          .ok (⟨⟨none, some layer.sha256Dig⟩, files⟩, layer :: fl)

/-- The loop over all components of the application. -/
def bundleComponents (env : Env) :
    List LockedComponent → Except PushError (List LockedComponent × List ImageLayer)
  | [] => .ok ([], [])
  | c :: cs =>
    match bundleComponent env c with
    | .error err => .error err
    | .ok (c', l) =>
      match bundleComponents env cs with
      | .error err => .error err
      | .ok (cs', ls) => .ok (c' :: cs', l ++ ls)

/-- The metadata key marking local provenance. -/
def originKey : Str := "origin".data

/-- The bundling stage of `Client::push`: rewrite every component, collect the
layer list, and remove the `origin` key from the metadata mapping. -/
def bundleApp (env : Env) (app : LockedApp) : Except PushError (LockedApp × List ImageLayer) :=
  match bundleComponents env app.components with
  | .error e => .error e
  | .ok (cs, ls) => .ok (⟨cs, app.metadata.filter (fun kv => kv.1 ≠ originKey)⟩, ls)

/-- Push environment: validity of the reference parse (external
`oci_distribution::Reference`), the reference's resolved registry host, the
credential state, and the transport outcome of the final upload. -/
structure PushEnv where
  refValid : Bool
  registry : Str
  auths : AuthConfig
  docker : Option DockerCredential
  uploadOk : Bool

/-- `Client::push`: parse the reference, resolve auth, bundle the application,
then serialize and upload; serialization of the locked app and the manifest
construction are external steps carrying no modelled state. -/
def push (pe : PushEnv) (env : Env) (app : LockedApp) :
    Except PushError (LockedApp × List ImageLayer) :=
  if pe.refValid = true then
    match authResolve pe.auths pe.docker pe.registry with
    | .error _ => .error .authError
    | .ok _ =>
      match bundleApp env app with
      | .error e => .error e
      | .ok r => if pe.uploadOk = true then .ok r else .error .transport
  else .error .parseReference

/-! ### Pull (`Client::pull`) -/

/-- A layer descriptor in the fetched OCI manifest. -/
structure OciLayerDesc where
  mediaType : Str
  digest : Str
deriving DecidableEq, Repr

/-- The fetched OCI image manifest: the config descriptor's digest and the
layer descriptors. -/
structure OciManifest where
  configDigest : Str
  layers : List OciLayerDesc
deriving DecidableEq, Repr

/-- Modelled from the spec: `spin_loader::oci::cache::Cache` (the crate is not
part of the examined sources) — two digest-keyed blob sub-stores, one for
wasm modules and one for opaque data. Writing an already-present digest is a
no-op and content is never mutated in place; the per-reference metadata
locations (`oci_manifest_path` / `lockfile_path`) are modelled as the pull
result's document fields. -/
structure Cache where
  wasm : List (Str × List Nat)
  dataStore : List (Str × List Nat)
deriving DecidableEq, Repr

/-- Modelled from the spec: `Cache::wasm_file(digest).is_ok()` — presence test
in the wasm sub-store. -/
def Cache.wasmFile (c : Cache) (d : Str) : Bool := (lookupTable c.wasm d).isSome

/-- Modelled from the spec: `Cache::data_file(digest).is_ok()` — presence test
in the data sub-store. -/
def Cache.dataFile (c : Cache) (d : Str) : Bool := (lookupTable c.dataStore d).isSome

/-- Modelled from the spec: `Cache::write_wasm` — idempotent digest-keyed write
into the wasm sub-store. -/
def Cache.writeWasm (c : Cache) (bytes : List Nat) (d : Str) : Cache :=
  if (lookupTable c.wasm d).isSome then c else { c with wasm := (d, bytes) :: c.wasm }

/-- Modelled from the spec: `Cache::write_data` — idempotent digest-keyed write
into the data sub-store. -/
def Cache.writeData (c : Cache) (bytes : List Nat) (d : Str) : Cache :=
  if (lookupTable c.dataStore d).isSome then c else { c with dataStore := (d, bytes) :: c.dataStore }

/-- Failure surfaces of `Client::pull`. -/
inductive PullError
  | parseReference
  | authError
  | manifestFetch
  | blobFetch
  | utf8
deriving DecidableEq, Repr

/-- Registry environment of `Client::pull`: validity of the reference parse,
the manifest fetch outcome (manifest plus its digest), and the blob fetch by
digest (`none` models a transport failure). -/
structure Registry where
  refValid : Bool
  manifest : Option (OciManifest × Str)
  blob : Str → Option (List Nat)

/-- The per-layer loop of `Client::pull`: skip a layer whose digest is already
in either cache sub-store, otherwise fetch its blob and store it — the
wasm-module media type into the wasm sub-store, every other media type into
the data sub-store. Returns the final cache and the descriptors of the
layers actually fetched, in order. -/
def pullLayers (reg : Registry) (cache : Cache) :
    List OciLayerDesc → Except PullError (Cache × List OciLayerDesc)
  | [] => .ok (cache, [])
  | l :: ls =>
    if cache.wasmFile l.digest = true ∨ cache.dataFile l.digest = true then
      pullLayers reg cache ls
    else
      match reg.blob l.digest with
      | none => .error .blobFetch
      | some bytes =>
        let cache' :=
          if l.mediaType = WASM_LAYER_MEDIA_TYPE then cache.writeWasm bytes l.digest
          else cache.writeData bytes l.digest
        match pullLayers reg cache' ls with
        | .error e => .error e
        | .ok (c2, log) => .ok (c2, l :: log)

/-- Result of `Client::pull`: the final cache, the fetched layers, and the
documents persisted at the manifest and lockfile paths. -/
structure PullResult where
  cache : Cache
  fetched : List OciLayerDesc
  manifestDoc : OciManifest
  configDoc : Str
deriving DecidableEq, Repr

/-- `Client::pull`: parse the reference, resolve auth, fetch and persist the
manifest, fetch the config blob (which must decode to a string) and persist
it, then process the layers. -/
def pull (reg : Registry) (a : AuthConfig) (docker : Option DockerCredential) (registry : Str)
    (cache : Cache) : Except PullError PullResult :=
  if reg.refValid = true then
    match authResolve a docker registry with
    | .error _ => .error .authError
    | .ok _ =>
      match reg.manifest with
      | none => .error .manifestFetch
      | some (manifest, _dig) =>
        match reg.blob manifest.configDigest with
        | none => .error .blobFetch
        | some cfgBytes =>
          match bytesStr cfgBytes with
          | none => .error .utf8
          | some cfg =>
            match pullLayers reg cache manifest.layers with
            | .error e => .error e
            | .ok (c2, log) => .ok ⟨c2, log, manifest, cfg⟩
  else .error .parseReference

/-! ### Concrete instances used as evaluation inputs -/

/-- A small file system: a module file `m` with bytes `[1, 2]`, and a mount
directory `d` holding two byte-identical regular files `a` and `b` (`[7]`). -/
def env0 : Env :=
  ⟨fun u => some u,
   fun p =>
     if p = "m".data then some [1, 2]
     else if p = "a".data ∨ p = "b".data then some [7]
     else none,
   fun d => if d = "d".data then [⟨"a".data, true, false⟩, ⟨"b".data, true, false⟩] else [],
   fun p _ => some p⟩

/-- One component whose module is `m` and whose single mount is directory `d`,
with an `origin` metadata entry and one other entry. -/
def app0 : LockedApp :=
  ⟨[⟨⟨some "m".data, none⟩, [⟨⟨some "d".data, none⟩, "dir".data⟩]⟩],
   [("origin".data, "local".data), ("name".data, "app".data)]⟩

/-- A push environment with a valid reference, empty credential state and a
successful upload. -/
def pe0 : PushEnv := ⟨true, "h".data, ⟨[]⟩, none, true⟩

/-- An application whose only component's module has no local source. -/
def app1 : LockedApp := ⟨[⟨⟨none, none⟩, []⟩], []⟩

/-- The bundling result for `env0`/`app0`. -/
def out0 : LockedApp × List ImageLayer := (bundleApp env0 app0).toOption.getD (⟨[], []⟩, [])

/-- A registry holding a manifest with one wasm layer already in the cache and
one data layer not yet cached, plus a config blob. -/
def reg0 : Registry :=
  ⟨true,
   some (⟨"cfg".data, [⟨WASM_LAYER_MEDIA_TYPE, "d1".data⟩, ⟨"text/plain".data, "d2".data⟩]⟩,
     "md".data),
   fun d => if d = "cfg".data then some (strBytes "lock".data)
     else if d = "d2".data then some [9, 9] else none⟩

/-- A cache in which digest `d1` is already present in the wasm sub-store. -/
def cache0 : Cache := ⟨[("d1".data, [3])], []⟩

/-- The pull result for `reg0`/`cache0` with empty credential state. -/
def res0 : PullResult :=
  (pull reg0 ⟨[]⟩ none "h".data cache0).toOption.getD ⟨⟨[], []⟩, [], ⟨[], []⟩, []⟩

/-! ## Codec lemmas -/

theorem charSextet_sextetChar : ∀ n < 64, charSextet (sextetChar n) = some n := by decide

theorem sextetChar_ne_pad (n : Nat) : sextetChar n ≠ '=' := by
  have hlt : ∀ m < 64, sextetChar m ≠ '=' := by decide
  by_cases h : n < 64
  · exact hlt n h
  · have hlen : b64Alphabet.length ≤ n := by
      have : b64Alphabet.length = 64 := by decide
      omega
    unfold sextetChar
    rw [List.getD_eq_default _ _ hlen]
    decide

theorem b64_roundtrip (bs : List Nat) (h : ∀ b ∈ bs, b < 256) : b64d (b64e bs) = some bs := by
  induction bs using b64e.induct with
  | case1 a b c rest ih =>
    have ha : a < 256 := h a (by simp)
    have hb : b < 256 := h b (by simp)
    have hc : c < 256 := h c (by simp)
    have ih' := ih (fun x hx => h x (by simp [hx]))
    have h1 : charSextet (sextetChar (a / 4)) = some (a / 4) :=
      charSextet_sextetChar _ (by omega)
    have h2 : charSextet (sextetChar (a % 4 * 16 + b / 16)) = some (a % 4 * 16 + b / 16) :=
      charSextet_sextetChar _ (by omega)
    have h3 : charSextet (sextetChar (b % 16 * 4 + c / 64)) = some (b % 16 * 4 + c / 64) :=
      charSextet_sextetChar _ (by omega)
    have h4 : charSextet (sextetChar (c % 64)) = some (c % 64) :=
      charSextet_sextetChar _ (by omega)
    have hne : ¬(sextetChar (c % 64) = '=' ∧ b64e rest = []) := by
      intro hcontra
      exact sextetChar_ne_pad _ hcontra.1
    simp only [b64e, b64d, if_neg hne, h1, h2, h3, h4, ih', Option.map_some']
    congr 1
    have e1 : a / 4 * 4 + (a % 4 * 16 + b / 16) / 16 = a := by omega
    have e2 : (a % 4 * 16 + b / 16) % 16 * 16 + (b % 16 * 4 + c / 64) / 4 = b := by omega
    have e3 : (b % 16 * 4 + c / 64) % 4 * 64 + c % 64 = c := by omega
    rw [e1, e2, e3]
  | case2 a b =>
    have ha : a < 256 := h a (by simp)
    have hb : b < 256 := h b (by simp)
    have h1 : charSextet (sextetChar (a / 4)) = some (a / 4) :=
      charSextet_sextetChar _ (by omega)
    have h2 : charSextet (sextetChar (a % 4 * 16 + b / 16)) = some (a % 4 * 16 + b / 16) :=
      charSextet_sextetChar _ (by omega)
    have h3 : charSextet (sextetChar (b % 16 * 4)) = some (b % 16 * 4) :=
      charSextet_sextetChar _ (by omega)
    simp only [b64e, b64d]
    rw [if_pos ⟨trivial, trivial⟩]
    simp only [h1, h2]
    rw [if_neg (sextetChar_ne_pad (b % 16 * 4))]
    simp only [h3]
    congr 1
    have e1 : a / 4 * 4 + (a % 4 * 16 + b / 16) / 16 = a := by omega
    have e2 : (a % 4 * 16 + b / 16) % 16 * 16 + b % 16 * 4 / 4 = b := by omega
    rw [e1, e2]
  | case3 a =>
    have ha : a < 256 := h a (by simp)
    have h1 : charSextet (sextetChar (a / 4)) = some (a / 4) :=
      charSextet_sextetChar _ (by omega)
    have h2 : charSextet (sextetChar (a % 4 * 16)) = some (a % 4 * 16) :=
      charSextet_sextetChar _ (by omega)
    simp only [b64e, b64d]
    rw [if_pos ⟨trivial, trivial⟩]
    simp only [h1, h2]
    rw [if_pos trivial]
    congr 1
    have e1 : a / 4 * 4 + a % 4 * 16 / 16 = a := by omega
    rw [e1]
  | case4 => rfl

theorem charToNat_lt (c : Char) : c.toNat < 1114112 := by
  have h := c.valid
  simp only [UInt32.isValidChar, Nat.isValidChar] at h
  simp only [Char.toNat]
  omega

theorem strBytes_lt (s : List Char) : ∀ b ∈ strBytes s, b < 256 := by
  induction s with
  | nil => simp [strBytes]
  | cons c cs ih =>
    intro b hb
    simp only [strBytes, charToBytes, List.mem_append] at hb
    rcases hb with hb | hb
    · have := charToNat_lt c
      simp only [List.mem_cons, List.not_mem_nil, or_false] at hb
      rcases hb with h | h | h <;> omega
    · exact ih b hb

theorem char_ofNat_toNat_eq (n : Nat) (h : n < 55296 ∨ (57344 ≤ n ∧ n < 1114112)) :
    (Char.ofNat n).toNat = n := by
  have hv : n.isValidChar := by
    simp only [Nat.isValidChar]
    omega
  simp only [Char.ofNat, hv, dif_pos, Char.ofNatAux, Char.toNat, UInt32.toNat]
  rfl

theorem bytesStr_strBytes (s : List Char) : bytesStr (strBytes s) = some s := by
  induction s with
  | nil => rfl
  | cons c cs ih =>
    have hval : c.toNat < 55296 ∨ (57344 ≤ c.toNat ∧ c.toNat < 1114112) := by
      have h := c.valid
      simp only [UInt32.isValidChar, Nat.isValidChar] at h
      simp only [Char.toNat]
      omega
    have hn : c.toNat / 65536 * 65536 + c.toNat / 256 % 256 * 256 + c.toNat % 256 = c.toNat := by
      omega
    have hstep : strBytes (c :: cs) =
        c.toNat / 65536 :: c.toNat / 256 % 256 :: c.toNat % 256 :: strBytes cs := rfl
    rw [hstep]
    simp only [bytesStr, hn]
    rw [if_pos hval, ih, Option.map_some']
    congr 1
    rw [Char.ofNat_toNat]

theorem splitn2_of_not_mem {sep : Char} {u : List Char} (p : List Char) (h : sep ∉ u) :
    splitn2 sep (u ++ sep :: p) = (u, some p) := by
  induction u with
  | nil => simp [splitn2]
  | cons c cs ih =>
    have hc : c ≠ sep := fun hc => h (by simp [hc])
    have hcs : sep ∉ cs := fun hcs => h (by simp [hcs])
    rw [List.cons_append]
    simp only [splitn2, if_neg hc]
    rw [ih hcs]

theorem splitn2_fst_not_mem (sep : Char) (l : List Char) : sep ∉ (splitn2 sep l).1 := by
  induction l with
  | nil => simp [splitn2]
  | cons c cs ih =>
    by_cases hc : c = sep
    · simp [splitn2, hc]
    · simp only [splitn2, if_neg hc]
      intro hmem
      rcases List.mem_cons.mp hmem with h | h
      · exact hc h.symm
      · exact ih h

/-! ## Credential-store lemmas -/

theorem splitn2_snd_some_of_mem {sep : Char} {l : List Char} (h : sep ∈ l) :
    ∃ r, (splitn2 sep l).2 = some r := by
  induction l with
  | nil => cases h
  | cons c cs ih =>
    by_cases hc : c = sep
    · exact ⟨cs, by simp [splitn2, hc]⟩
    · have hcs : sep ∈ cs := by
        rcases List.mem_cons.mp h with h' | h'
        · exact absurd h'.symm hc
        · exact h'
      rcases ih hcs with ⟨r, hr⟩
      exact ⟨r, by simp only [splitn2, if_neg hc]; exact hr⟩

theorem lookupTable_filter_self {α : Type} (m : List (Str × α)) (k : Str) :
    lookupTable (m.filter (fun kv => kv.1 ≠ k)) k = none := by
  induction m with
  | nil => rfl
  | cons kv rest ih =>
    by_cases h : kv.1 = k
    · simpa [List.filter_cons, h] using ih
    · simpa [List.filter_cons, h, lookupTable] using ih

/-- The entry freshly stored by `AuthConfig::insert` decodes back through
`get_auth_from_default` to the two halves of the split at the first `:`. -/
theorem getAuthFromDefault_insert (a : AuthConfig) (server u p : Str) :
    ∃ r, (splitn2 ':' (u ++ ':' :: p)).2 = some r ∧
      (a.insert server u p).getAuthFromDefault server =
        .ok (.basic (splitn2 ':' (u ++ ':' :: p)).1 r) := by
  have hmem : ':' ∈ u ++ ':' :: p := by simp
  rcases splitn2_snd_some_of_mem hmem with ⟨r, hr⟩
  refine ⟨r, hr, ?_⟩
  have hlook : lookupTable (a.insert server u p).auths server = some (encodeCred u p) := by
    simp [AuthConfig.insert, lookupTable]
  have hb64 : b64d (encodeCred u p) = some (strBytes (u ++ ':' :: p)) :=
    b64_roundtrip _ (strBytes_lt _)
  have hstr : bytesStr (strBytes (u ++ ':' :: p)) = some (u ++ ':' :: p) :=
    bytesStr_strBytes _
  simp only [AuthConfig.getAuthFromDefault, hlook, hb64, hstr, hr]

/-- C5: credential resolution for a registry host uses a stored (decodable)
credential when one is present — even when an OS-level credential also
exists — and otherwise consults the OS-level lookup: a username/password
pair is used, an identity token or a failed lookup falls back to anonymous;
resolution itself never returns an error. -/
theorem c5_resolution_order (a : AuthConfig) (docker : Option DockerCredential) (registry : Str) :
    (∀ c, a.getAuthFromDefault (stripSuffixSlash registry) = .ok c →
        authResolve a docker registry = .ok c) ∧
    (a.getAuthFromDefault (stripSuffixSlash registry) = .error () →
        ∀ u p, docker = some (.usernamePassword u p) →
          authResolve a docker registry = .ok (.basic u p)) ∧
    (a.getAuthFromDefault (stripSuffixSlash registry) = .error () →
        ∀ t, docker = some (.identityToken t) →
          authResolve a docker registry = .ok .anonymous) ∧
    (a.getAuthFromDefault (stripSuffixSlash registry) = .error () →
        docker = none → authResolve a docker registry = .ok .anonymous) ∧
    (∃ c, authResolve a docker registry = .ok c) := by
  refine ⟨?_, ?_, ?_, ?_, ?_⟩
  · intro c hc
    simp [authResolve, hc]
  · intro he u p hd
    simp [authResolve, he, hd]
  · intro he t hd
    simp [authResolve, he, hd]
  · intro he hd
    simp [authResolve, he, hd]
  · rcases hg : a.getAuthFromDefault (stripSuffixSlash registry) with e | c
    · rcases docker with _ | cred
      · exact ⟨.anonymous, by simp [authResolve, hg]⟩
      · rcases cred with ⟨u, p⟩ | t
        · exact ⟨.basic u p, by simp [authResolve, hg]⟩
        · exact ⟨.anonymous, by simp [authResolve, hg]⟩
    · exact ⟨c, by simp [authResolve, hg]⟩

/-- C5 witness: with a stored credential for the host and a Docker credential
also present, resolution returns the stored credential. -/
theorem c5_resolution_order_witness :
    authResolve ((AuthConfig.mk []).insert "ghcr.io".data "u".data "p".data)
      (some (.usernamePassword "other".data "pw".data)) "ghcr.io".data =
      .ok (.basic "u".data "p".data) := by
  exact (c5_resolution_order _ _ _).1 _ (by rfl)

/-- C9: round trip of the credential encoding — inserting a credential and then
resolving auth for that server yields back exactly that username and
password if and only if the username contains no `:` (a `:` in the password
is preserved, since the decoded string is split at the first `:` only). -/
theorem c9_credential_roundtrip (a : AuthConfig) (docker : Option DockerCredential)
    (registry server u p : Str) (h : stripSuffixSlash registry = server) :
    authResolve (a.insert server u p) docker registry = .ok (.basic u p) ↔ ':' ∉ u := by
  rcases getAuthFromDefault_insert a server u p with ⟨r, hr, hget⟩
  have hres : authResolve (a.insert server u p) docker registry =
      .ok (.basic (splitn2 ':' (u ++ ':' :: p)).1 r) := by
    simp [authResolve, h, hget]
  constructor
  · intro heq
    rw [hres] at heq
    injection heq with heq'
    injection heq' with hfst hsnd
    have := splitn2_fst_not_mem ':' (u ++ ':' :: p)
    rw [hfst] at this
    exact this
  · intro hnot
    have hsplit : splitn2 ':' (u ++ ':' :: p) = (u, some p) := splitn2_of_not_mem p hnot
    have hrp : p = r := by
      rw [hsplit] at hr
      exact Option.some.inj hr
    rw [hres, hsplit, ← hrp]

/-- C9 witness: at a username without `:`, the round trip returns the
credential exactly; the hypothesis and the iff's right side hold by
computation. -/
theorem c9_credential_roundtrip_witness :
    authResolve ((AuthConfig.mk []).insert "h".data "u".data "p:q".data) none "h".data =
      .ok (.basic "u".data "p:q".data) := by
  exact (c9_credential_roundtrip (AuthConfig.mk []) none "h".data "h".data
    "u".data "p:q".data (by decide)).mpr (by decide)

/-- C10: a stored but malformed credential entry (not valid base64, not a valid
string after decoding, or containing no `:` separator) does not surface an
error from auth resolution: the result is exactly the result with no entry
stored for that host, falling through to the OS-level lookup and ultimately
anonymous. -/
theorem c10_malformed_entry_falls_through (a : AuthConfig) (docker : Option DockerCredential)
    (registry enc : Str)
    (h1 : lookupTable a.auths (stripSuffixSlash registry) = some enc)
    (h2 : b64d enc = none ∨
      (∃ bs, b64d enc = some bs ∧ bytesStr bs = none) ∨
      (∃ bs s, b64d enc = some bs ∧ bytesStr bs = some s ∧ (splitn2 ':' s).2 = none)) :
    authResolve a docker registry =
      authResolve ⟨a.auths.filter (fun kv => kv.1 ≠ stripSuffixSlash registry)⟩ docker registry ∧
    ∃ c, authResolve a docker registry = .ok c := by
  have herr : a.getAuthFromDefault (stripSuffixSlash registry) = .error () := by
    rcases h2 with h2 | ⟨bs, hb, hs⟩ | ⟨bs, s, hb, hs, hsp⟩
    · simp [AuthConfig.getAuthFromDefault, h1, h2]
    · simp [AuthConfig.getAuthFromDefault, h1, hb, hs]
    · simp [AuthConfig.getAuthFromDefault, h1, hb, hs, hsp]
  have herr' :
      AuthConfig.getAuthFromDefault ⟨a.auths.filter (fun kv => kv.1 ≠ stripSuffixSlash registry)⟩
        (stripSuffixSlash registry) = .error () := by
    have hlf := lookupTable_filter_self a.auths (stripSuffixSlash registry)
    simp only [AuthConfig.getAuthFromDefault]
    rw [hlf]
  constructor
  · simp only [authResolve]
    rw [herr, herr']
  · rcases docker with _ | cred
    · exact ⟨.anonymous, by simp [authResolve, herr]⟩
    · rcases cred with ⟨u, p⟩ | t
      · exact ⟨.basic u p, by simp [authResolve, herr]⟩
      · exact ⟨.anonymous, by simp [authResolve, herr]⟩

/-- C10 witness: an entry that is not valid base64 makes resolution behave as
if nothing were stored, yielding anonymous without an error. -/
theorem c10_malformed_entry_falls_through_witness :
    authResolve ⟨[("h".data, "!".data)]⟩ none "h".data =
      authResolve ⟨([("h".data, "!".data)] :
        List (Str × Str)).filter (fun kv => kv.1 ≠ stripSuffixSlash "h".data)⟩ none "h".data ∧
    ∃ c, authResolve ⟨[("h".data, "!".data)]⟩ none "h".data = .ok c := by
  exact c10_malformed_entry_falls_through ⟨[("h".data, "!".data)]⟩ none "h".data "!".data
    (by decide) (Or.inl (by decide))

/-- C4: login validates the credentials by the live handshake before persisting
anything — if validation fails, login returns an error and no table is
written; if validation succeeds, the normalized host's entry is inserted or
overwritten with the base64-encoded `username:password` and the whole table
(all other entries unchanged) is saved. -/
theorem c4_login_validates_before_persisting (env : LoginEnv) (persisted : AuthConfig)
    (server username password : Str) :
    (env.validate (normalizeServer env server) username password = false →
        login env persisted server username password = .error ()) ∧
    (env.validate (normalizeServer env server) username password = true →
        ∃ t, login env persisted server username password = .ok t ∧
          lookupTable t.auths (normalizeServer env server) = some (encodeCred username password) ∧
          ∀ k, k ≠ normalizeServer env server → lookupTable t.auths k = lookupTable persisted.auths k) := by
  constructor
  · intro hv
    simp [login, hv]
  · intro hv
    refine ⟨persisted.insert (normalizeServer env server) username password, ?_, ?_, ?_⟩
    · simp [login, hv]
    · simp [AuthConfig.insert, lookupTable]
    · intro k hk
      simp only [AuthConfig.insert, lookupTable]
      rw [if_neg (fun h => hk h.symm)]

/-- C4 witness: with a validating environment, login persists the encoded
entry for the normalized host. -/
theorem c4_login_validates_before_persisting_witness :
    ∃ t, login ⟨fun _ => none, fun _ _ _ => true⟩ (AuthConfig.mk []) "h".data "u".data "p".data =
        .ok t ∧
      lookupTable t.auths (normalizeServer ⟨fun _ => none, fun _ _ _ => true⟩ "h".data) =
        some (encodeCred "u".data "p".data) ∧
      ∀ k, k ≠ normalizeServer ⟨fun _ => none, fun _ _ _ => true⟩ "h".data →
        lookupTable t.auths k = lookupTable (AuthConfig.mk []).auths k := by
  exact (c4_login_validates_before_persisting ⟨fun _ => none, fun _ _ _ => true⟩
    (AuthConfig.mk []) "h".data "u".data "p".data).2 rfl

/-! ## Push lemmas -/

theorem authResolve_ok (a : AuthConfig) (docker : Option DockerCredential) (registry : Str) :
    ∃ c, authResolve a docker registry = .ok c := by
  rcases hg : a.getAuthFromDefault (stripSuffixSlash registry) with e | c
  · rcases docker with _ | cred
    · exact ⟨.anonymous, by simp [authResolve, hg]⟩
    · rcases cred with ⟨u, p⟩ | t
      · exact ⟨.basic u p, by simp [authResolve, hg]⟩
      · exact ⟨.anonymous, by simp [authResolve, hg]⟩
  · exact ⟨c, by simp [authResolve, hg]⟩

theorem bundleEntry_ok_some (env : Env) (src : Str) (e : DirEntry) (f : ContentPath)
    (l : ImageLayer) (h : bundleEntry env src e = .ok (some (f, l))) :
    f.content.source = none ∧
    ∃ bytes, env.readFile e.path = some bytes ∧
      f.content.digest = some (sha256Digest bytes) ∧ env.toRelative e.path src = some f.path := by
  unfold bundleEntry at h
  split at h
  · unfold dataLayer at h
    cases hread : env.readFile e.path with
    | none => rw [hread] at h; simp at h
    | some bytes =>
      rw [hread] at h
      simp only [Option.map_some'] at h
      cases hrel : env.toRelative e.path src with
      | none => rw [hrel] at h; simp at h
      | some rel =>
        rw [hrel] at h
        simp only [Except.ok.injEq, Option.some.injEq, Prod.mk.injEq] at h
        obtain ⟨hf, hl⟩ := h
        subst hf
        exact ⟨rfl, bytes, rfl, rfl, rfl⟩
  · simp at h

theorem bundleEntryList_ok (env : Env) (src : Str) (es : List DirEntry)
    (fs : List ContentPath) (ls : List ImageLayer)
    (h : bundleEntryList env src es = .ok (fs, ls)) :
    ls.length = fs.length ∧
    ∀ f ∈ fs, f.content.source = none ∧
      ∃ e ∈ es, ∃ bytes, env.readFile e.path = some bytes ∧
        f.content.digest = some (sha256Digest bytes) ∧ env.toRelative e.path src = some f.path := by
  induction es generalizing fs ls with
  | nil =>
    simp only [bundleEntryList, Except.ok.injEq, Prod.mk.injEq] at h
    obtain ⟨h1, h2⟩ := h
    subst h1; subst h2
    exact ⟨rfl, by simp⟩
  | cons e es ih =>
    cases hbe : bundleEntry env src e with
    | error err => simp [bundleEntryList, hbe] at h
    | ok o =>
      cases o with
      | none =>
        simp only [bundleEntryList, hbe] at h
        obtain ⟨hlen, hall⟩ := ih fs ls h
        refine ⟨hlen, ?_⟩
        intro f hf
        obtain ⟨hsrc, e', he', rest⟩ := hall f hf
        exact ⟨hsrc, e', List.mem_cons_of_mem _ he', rest⟩
      | some pair =>
        obtain ⟨f0, l0⟩ := pair
        cases hrec : bundleEntryList env src es with
        | error err => simp [bundleEntryList, hbe, hrec] at h
        | ok pr =>
          obtain ⟨fs', ls'⟩ := pr
          simp only [bundleEntryList, hbe, hrec, Except.ok.injEq, Prod.mk.injEq] at h
          obtain ⟨hfs, hls⟩ := h
          subst hfs; subst hls
          obtain ⟨hlen, hall⟩ := ih fs' ls' hrec
          obtain ⟨hsrc0, bytes, hread, hdig, hrel⟩ := bundleEntry_ok_some env src e f0 l0 hbe
          constructor
          · simp [hlen]
          · intro f hf
            rcases List.mem_cons.mp hf with rfl | hf'
            · exact ⟨hsrc0, e, List.mem_cons_self _ _, bytes, hread, hdig, hrel⟩
            · obtain ⟨hsrc, e', he', rest⟩ := hall f hf'
              exact ⟨hsrc, e', List.mem_cons_of_mem _ he', rest⟩

theorem bundleMount_ok (env : Env) (m : ContentPath) (fs : List ContentPath)
    (ls : List ImageLayer) (h : bundleMount env m = .ok (fs, ls)) :
    ls.length = fs.length ∧
    ∃ url src, m.content.source = some url ∧ env.parseFileUrl url = some src ∧
      ∀ f ∈ fs, f.content.source = none ∧
        ∃ e ∈ env.walk src, ∃ bytes, env.readFile e.path = some bytes ∧
          f.content.digest = some (sha256Digest bytes) ∧ env.toRelative e.path src = some f.path := by
  cases hsrc : m.content.source with
  | none => simp [bundleMount, hsrc] at h
  | some url =>
    cases hurl : env.parseFileUrl url with
    | none => simp [bundleMount, hsrc, hurl] at h
    | some src =>
      simp only [bundleMount, hsrc, hurl] at h
      obtain ⟨hlen, hall⟩ := bundleEntryList_ok env src _ fs ls h
      exact ⟨hlen, url, src, rfl, hurl, hall⟩

theorem bundleMounts_ok (env : Env) (ms : List ContentPath) (fs : List ContentPath)
    (ls : List ImageLayer) (h : bundleMounts env ms = .ok (fs, ls)) :
    ls.length = fs.length ∧
    (∀ m ∈ ms, m.content.source ≠ none) ∧
    ∀ f ∈ fs, f.content.source = none ∧
      ∃ url src, (∃ m ∈ ms, m.content.source = some url ∧ env.parseFileUrl url = some src) ∧
        ∃ e ∈ env.walk src, ∃ bytes, env.readFile e.path = some bytes ∧
          f.content.digest = some (sha256Digest bytes) ∧ env.toRelative e.path src = some f.path := by
  induction ms generalizing fs ls with
  | nil =>
    simp only [bundleMounts, Except.ok.injEq, Prod.mk.injEq] at h
    obtain ⟨h1, h2⟩ := h
    subst h1; subst h2
    exact ⟨rfl, by simp, by simp⟩
  | cons m ms ih =>
    cases hm : bundleMount env m with
    | error err => simp [bundleMounts, hm] at h
    | ok pa =>
      obtain ⟨a, la⟩ := pa
      cases hms : bundleMounts env ms with
      | error err => simp [bundleMounts, hm, hms] at h
      | ok pb =>
        obtain ⟨b, lb⟩ := pb
        simp only [bundleMounts, hm, hms, Except.ok.injEq, Prod.mk.injEq] at h
        obtain ⟨hfs, hls⟩ := h
        subst hfs; subst hls
        obtain ⟨hlen1, url, src, hmsrc, hurl, hall1⟩ := bundleMount_ok env m a la hm
        obtain ⟨hlen2, hnm, hall2⟩ := ih b lb hms
        refine ⟨by simp [hlen1, hlen2], ?_, ?_⟩
        · intro m' hm'
          rcases List.mem_cons.mp hm' with rfl | hm''
          · rw [hmsrc]; simp
          · exact hnm m' hm''
        · intro f hf
          rcases List.mem_append.mp hf with hf' | hf'
          · obtain ⟨hfsrc, e, he, rest⟩ := hall1 f hf'
            exact ⟨hfsrc, url, src, ⟨m, List.mem_cons_self _ _, hmsrc, hurl⟩, e, he, rest⟩
          · obtain ⟨hfsrc, url', src', ⟨m', hm', hr⟩, rest⟩ := hall2 f hf'
            exact ⟨hfsrc, url', src', ⟨m', List.mem_cons_of_mem _ hm', hr⟩, rest⟩

theorem bundleComponent_ok (env : Env) (c c' : LockedComponent) (l : List ImageLayer)
    (h : bundleComponent env c = .ok (c', l)) :
    l.length = 1 + c'.files.length ∧
    (c.source.source ≠ none ∧ ∀ m ∈ c.files, m.content.source ≠ none) ∧
    c'.source.source = none ∧
    (∃ url src bytes, c.source.source = some url ∧ env.parseFileUrl url = some src ∧
      env.readFile src = some bytes ∧ c'.source.digest = some (sha256Digest bytes)) ∧
    ∀ f ∈ c'.files, f.content.source = none ∧
      ∃ url src, (∃ m ∈ c.files, m.content.source = some url ∧ env.parseFileUrl url = some src) ∧
        ∃ e ∈ env.walk src, ∃ bytes, env.readFile e.path = some bytes ∧
          f.content.digest = some (sha256Digest bytes) ∧ env.toRelative e.path src = some f.path := by
  cases hsrc : c.source.source with
  | none => simp [bundleComponent, hsrc] at h
  | some url =>
    cases hurl : env.parseFileUrl url with
    | none => simp [bundleComponent, hsrc, hurl] at h
    | some src =>
      cases hread : env.readFile src with
      | none => simp [bundleComponent, wasmLayer, hsrc, hurl, hread] at h
      | some bytes =>
        cases hbm : bundleMounts env c.files with
        | error err => simp [bundleComponent, wasmLayer, hsrc, hurl, hread, hbm] at h
        | ok p =>
          obtain ⟨files, fl⟩ := p
          simp only [bundleComponent, wasmLayer, hsrc, hurl, hread, hbm, Option.map_some',
            Except.ok.injEq, Prod.mk.injEq] at h
          obtain ⟨hc', hl⟩ := h
          subst hc'; subst hl
          obtain ⟨hlen, hnm, hall⟩ := bundleMounts_ok env c.files files fl hbm
          refine ⟨by simp only [List.length_cons, hlen]; omega, ⟨by simp, hnm⟩, rfl,
            ⟨url, src, bytes, rfl, hurl, hread, rfl⟩, hall⟩

theorem bundleComponents_ok (env : Env) (cs cs' : List LockedComponent) (ls : List ImageLayer)
    (h : bundleComponents env cs = .ok (cs', ls)) :
    ls.length = cs'.length + (cs'.map (fun c => c.files.length)).sum ∧
    (∀ c ∈ cs, c.source.source ≠ none ∧ ∀ m ∈ c.files, m.content.source ≠ none) ∧
    List.Forall₂ (fun c c' =>
      c'.source.source = none ∧
      (∃ url src bytes, c.source.source = some url ∧ env.parseFileUrl url = some src ∧
        env.readFile src = some bytes ∧ c'.source.digest = some (sha256Digest bytes)) ∧
      ∀ f ∈ c'.files, f.content.source = none ∧
        ∃ url src, (∃ m ∈ c.files, m.content.source = some url ∧ env.parseFileUrl url = some src) ∧
          ∃ e ∈ env.walk src, ∃ bytes, env.readFile e.path = some bytes ∧
            f.content.digest = some (sha256Digest bytes) ∧ env.toRelative e.path src = some f.path)
      cs cs' := by
  induction cs generalizing cs' ls with
  | nil =>
    simp only [bundleComponents, Except.ok.injEq, Prod.mk.injEq] at h
    obtain ⟨h1, h2⟩ := h
    subst h1; subst h2
    exact ⟨rfl, by simp, List.Forall₂.nil⟩
  | cons c cs ih =>
    cases hbc : bundleComponent env c with
    | error err => simp [bundleComponents, hbc] at h
    | ok pa =>
      obtain ⟨c0', l0⟩ := pa
      cases hrec : bundleComponents env cs with
      | error err => simp [bundleComponents, hbc, hrec] at h
      | ok pb =>
        obtain ⟨cs0', ls0⟩ := pb
        simp only [bundleComponents, hbc, hrec, Except.ok.injEq, Prod.mk.injEq] at h
        obtain ⟨hcs, hls⟩ := h
        subst hcs; subst hls
        obtain ⟨hlen1, hpres, hc'src, hmod, hfiles⟩ := bundleComponent_ok env c c0' l0 hbc
        obtain ⟨hlen2, hnm, hrel⟩ := ih cs0' ls0 hrec
        refine ⟨?_, ?_, List.Forall₂.cons ⟨hc'src, hmod, hfiles⟩ hrel⟩
        · simp only [List.length_append, List.length_cons, List.map_cons, List.sum_cons]
          omega
        · intro cc hcc
          rcases List.mem_cons.mp hcc with rfl | hcc'
          · exact hpres
          · exact hnm cc hcc'

theorem bundleApp_ok (env : Env) (app : LockedApp) (out : LockedApp × List ImageLayer)
    (h : bundleApp env app = .ok out) :
    bundleComponents env app.components = .ok (out.1.components, out.2) ∧
    out.1.metadata = app.metadata.filter (fun kv => kv.1 ≠ originKey) := by
  unfold bundleApp at h
  cases hbc : bundleComponents env app.components with
  | error e => rw [hbc] at h; simp at h
  | ok p =>
    obtain ⟨cs, ls⟩ := p
    rw [hbc] at h
    simp only [Except.ok.injEq] at h
    subst h
    exact ⟨rfl, rfl⟩

theorem push_ok_bundleApp (pe : PushEnv) (env : Env) (app : LockedApp)
    (out : LockedApp × List ImageLayer) (h : push pe env app = .ok out) :
    bundleApp env app = .ok out := by
  unfold push at h
  by_cases hr : pe.refValid = true
  · obtain ⟨cr, hcr⟩ := authResolve_ok pe.auths pe.docker pe.registry
    cases hb : bundleApp env app with
    | error e => simp [hr, hcr, hb] at h
    | ok r =>
      by_cases hu : pe.uploadOk = true
      · simp [hr, hcr, hb, hu] at h
        subst h
        rfl
      · simp [hr, hcr, hb, hu] at h
  · simp [hr] at h

/-! ## Push claim theorems -/

/-- C1 counterexample: on a bundle with two byte-identical mounted files, the
layer list produced by push contains two layers with the same digest, not
one — refuting "exactly one layer per distinct sha-256 digest". -/
theorem c1_counterexample :
    push pe0 env0 app0 = .ok out0 ∧
    (out0.2.filter (fun l => l.sha256Dig = sha256Digest [7])).length = 2 :=
  ⟨rfl, rfl⟩

/-- C1 (amended): the layer list produced by push contains one layer per
bundled file — the component count plus the total number of rewritten file
entries — so byte-identical files contribute separate layers (which, being a
function of the bytes, carry the same digest) while each file gets its own
ContentPath entry; deduplication is left to the upload step. -/
theorem c1_one_layer_per_file (pe : PushEnv) (env : Env) (app : LockedApp)
    (out : LockedApp × List ImageLayer) (h : push pe env app = .ok out) :
    out.2.length = out.1.components.length + (out.1.components.map (fun c => c.files.length)).sum := by
  obtain ⟨hbc, _⟩ := bundleApp_ok env app out (push_ok_bundleApp pe env app out h)
  exact (bundleComponents_ok env app.components out.1.components out.2 hbc).1

/-- C1 witness: on the concrete bundle, three layers for one module plus two
file entries. -/
theorem c1_one_layer_per_file_witness :
    out0.2.length = out0.1.components.length + (out0.1.components.map (fun c => c.files.length)).sum :=
  c1_one_layer_per_file pe0 env0 app0 out0 (by rfl)

/-- C2: after bundling inside push, every component of the locked bundle has
its module reference rewritten to `source = none` and
`digest = sha-256 of the module file's bytes`, and every rewritten file
entry has `source = none`, `digest = sha-256 of the file's bytes`, and a
path that is the file's location relative to its mount root. -/
theorem c2_bundling_replaces_sources_with_digests (pe : PushEnv) (env : Env) (app : LockedApp)
    (out : LockedApp × List ImageLayer) (h : push pe env app = .ok out) :
    List.Forall₂ (fun c c' =>
      c'.source.source = none ∧
      (∃ url src bytes, c.source.source = some url ∧ env.parseFileUrl url = some src ∧
        env.readFile src = some bytes ∧ c'.source.digest = some (sha256Digest bytes)) ∧
      ∀ f ∈ c'.files, f.content.source = none ∧
        ∃ url src, (∃ m ∈ c.files, m.content.source = some url ∧ env.parseFileUrl url = some src) ∧
          ∃ e ∈ env.walk src, ∃ bytes, env.readFile e.path = some bytes ∧
            f.content.digest = some (sha256Digest bytes) ∧ env.toRelative e.path src = some f.path)
      app.components out.1.components := by
  obtain ⟨hbc, _⟩ := bundleApp_ok env app out (push_ok_bundleApp pe env app out h)
  exact (bundleComponents_ok env app.components out.1.components out.2 hbc).2.2

/-- C2 witness: the property instantiated on the concrete bundle. -/
theorem c2_bundling_replaces_sources_with_digests_witness :
    List.Forall₂ (fun c c' =>
      c'.source.source = none ∧
      (∃ url src bytes, c.source.source = some url ∧ env0.parseFileUrl url = some src ∧
        env0.readFile src = some bytes ∧ c'.source.digest = some (sha256Digest bytes)) ∧
      ∀ f ∈ c'.files, f.content.source = none ∧
        ∃ url src, (∃ m ∈ c.files, m.content.source = some url ∧ env0.parseFileUrl url = some src) ∧
          ∃ e ∈ env0.walk src, ∃ bytes, env0.readFile e.path = some bytes ∧
            f.content.digest = some (sha256Digest bytes) ∧ env0.toRelative e.path src = some f.path)
      app0.components out0.1.components :=
  c2_bundling_replaces_sources_with_digests pe0 env0 app0 out0 (by rfl)

/-- C7: push fails with an error whenever any component's module lacks a local
file source, or any file-mount entry of any component lacks a local source. -/
theorem c7_missing_source_aborts_push (pe : PushEnv) (env : Env) (app : LockedApp)
    (h : (∃ c ∈ app.components, c.source.source = none) ∨
         (∃ c ∈ app.components, ∃ f ∈ c.files, f.content.source = none)) :
    ∃ e, push pe env app = .error e := by
  cases hp : push pe env app with
  | error e => exact ⟨e, rfl⟩
  | ok out =>
    exfalso
    obtain ⟨hbc, _⟩ := bundleApp_ok env app out (push_ok_bundleApp pe env app out hp)
    obtain ⟨_, hnm, _⟩ := bundleComponents_ok env app.components out.1.components out.2 hbc
    rcases h with ⟨c, hc, hcs⟩ | ⟨c, hc, f, hf, hfs⟩
    · exact (hnm c hc).1 hcs
    · exact (hnm c hc).2 f hf hfs

/-- C7 witness: pushing an application whose only component's module has no
source fails. -/
theorem c7_missing_source_aborts_push_witness :
    ∃ e, push pe0 env0 app1 = .error e :=
  c7_missing_source_aborts_push pe0 env0 app1 (Or.inl (by decide))

/-- C8: before the bundle is serialized and pushed, the `origin` key is removed
from the locked bundle's metadata mapping and every other entry is kept. -/
theorem c8_origin_key_removed (pe : PushEnv) (env : Env) (app : LockedApp)
    (out : LockedApp × List ImageLayer) (h : push pe env app = .ok out) :
    ∀ kv, kv ∈ out.1.metadata ↔ kv ∈ app.metadata ∧ kv.1 ≠ originKey := by
  obtain ⟨_, hmeta⟩ := bundleApp_ok env app out (push_ok_bundleApp pe env app out h)
  intro kv
  rw [hmeta, List.mem_filter]
  simp

/-- C8 witness: on the concrete bundle, the `name` entry is kept and the
`origin` entry is removed. -/
theorem c8_origin_key_removed_witness :
    (("name".data, "app".data) ∈ out0.1.metadata ↔
      ("name".data, "app".data) ∈ app0.metadata ∧ ("name".data : Str) ≠ originKey) ∧
    (("origin".data, "local".data) ∈ out0.1.metadata ↔
      ("origin".data, "local".data) ∈ app0.metadata ∧ ("origin".data : Str) ≠ originKey) :=
  ⟨c8_origin_key_removed pe0 env0 app0 out0 (by rfl) _,
   c8_origin_key_removed pe0 env0 app0 out0 (by rfl) _⟩

/-! ## Pull lemmas -/

theorem writeWasm_preserves (c : Cache) (bytes : List Nat) (dg d : Str) (v : List Nat) :
    (lookupTable c.wasm d = some v → lookupTable (c.writeWasm bytes dg).wasm d = some v) ∧
    (lookupTable c.dataStore d = some v →
      lookupTable (c.writeWasm bytes dg).dataStore d = some v) := by
  unfold Cache.writeWasm
  by_cases hp : (lookupTable c.wasm dg).isSome
  · rw [if_pos hp]; exact ⟨id, id⟩
  · rw [if_neg hp]
    refine ⟨?_, fun hv => hv⟩
    intro hv
    simp only [lookupTable]
    by_cases hdg : dg = d
    · subst hdg; rw [hv] at hp; simp at hp
    · rw [if_neg hdg]; exact hv

theorem writeData_preserves (c : Cache) (bytes : List Nat) (dg d : Str) (v : List Nat) :
    (lookupTable c.wasm d = some v → lookupTable (c.writeData bytes dg).wasm d = some v) ∧
    (lookupTable c.dataStore d = some v →
      lookupTable (c.writeData bytes dg).dataStore d = some v) := by
  unfold Cache.writeData
  by_cases hp : (lookupTable c.dataStore dg).isSome
  · rw [if_pos hp]; exact ⟨id, id⟩
  · rw [if_neg hp]
    refine ⟨fun hv => hv, ?_⟩
    intro hv
    simp only [lookupTable]
    by_cases hdg : dg = d
    · subst hdg; rw [hv] at hp; simp at hp
    · rw [if_neg hdg]; exact hv

theorem writeWasm_self (c : Cache) (bytes : List Nat) (dg : Str)
    (h : c.wasmFile dg = false) :
    lookupTable (c.writeWasm bytes dg).wasm dg = some bytes ∧
    (c.writeWasm bytes dg).dataStore = c.dataStore := by
  unfold Cache.wasmFile at h
  unfold Cache.writeWasm
  rw [if_neg (by simp [h])]
  exact ⟨by simp [lookupTable], rfl⟩

theorem writeData_self (c : Cache) (bytes : List Nat) (dg : Str)
    (h : c.dataFile dg = false) :
    lookupTable (c.writeData bytes dg).dataStore dg = some bytes ∧
    (c.writeData bytes dg).wasm = c.wasm := by
  unfold Cache.dataFile at h
  unfold Cache.writeData
  rw [if_neg (by simp [h])]
  exact ⟨by simp [lookupTable], rfl⟩

theorem writeWasm_other (c : Cache) (bytes : List Nat) (dg d : Str) (hne : dg ≠ d) :
    lookupTable (c.writeWasm bytes dg).wasm d = lookupTable c.wasm d ∧
    (c.writeWasm bytes dg).dataStore = c.dataStore := by
  unfold Cache.writeWasm
  by_cases hp : (lookupTable c.wasm dg).isSome
  · rw [if_pos hp]; exact ⟨rfl, rfl⟩
  · rw [if_neg hp]
    exact ⟨by simp [lookupTable, hne], rfl⟩

theorem writeData_other (c : Cache) (bytes : List Nat) (dg d : Str) (hne : dg ≠ d) :
    lookupTable (c.writeData bytes dg).dataStore d = lookupTable c.dataStore d ∧
    (c.writeData bytes dg).wasm = c.wasm := by
  unfold Cache.writeData
  by_cases hp : (lookupTable c.dataStore dg).isSome
  · rw [if_pos hp]; exact ⟨rfl, rfl⟩
  · rw [if_neg hp]
    exact ⟨by simp [lookupTable, hne], rfl⟩

theorem pullLayers_ok (reg : Registry) (cache cache' : Cache) (layers log : List OciLayerDesc)
    (h : pullLayers reg cache layers = .ok (cache', log)) :
    (∀ d v, (lookupTable cache.wasm d = some v → lookupTable cache'.wasm d = some v) ∧
        (lookupTable cache.dataStore d = some v →
          lookupTable cache'.dataStore d = some v)) ∧
    (∀ d, cache.wasmFile d = true ∨ cache.dataFile d = true →
        lookupTable cache'.wasm d = lookupTable cache.wasm d ∧
        lookupTable cache'.dataStore d = lookupTable cache.dataStore d) ∧
    (∀ l' ∈ log, cache.wasmFile l'.digest = false ∧ cache.dataFile l'.digest = false) ∧
    (∀ l' ∈ log, ∃ bytes, reg.blob l'.digest = some bytes ∧
        (l'.mediaType = WASM_LAYER_MEDIA_TYPE →
          lookupTable cache'.wasm l'.digest = some bytes) ∧
        (l'.mediaType ≠ WASM_LAYER_MEDIA_TYPE →
          lookupTable cache'.dataStore l'.digest = some bytes)) := by
  induction layers generalizing cache cache' log with
  | nil =>
    simp only [pullLayers, Except.ok.injEq, Prod.mk.injEq] at h
    obtain ⟨h1, h2⟩ := h
    subst h1; subst h2
    exact ⟨fun d v => ⟨id, id⟩, fun d _ => ⟨rfl, rfl⟩, by simp, by simp⟩
  | cons l ls ih =>
    by_cases hc : cache.wasmFile l.digest = true ∨ cache.dataFile l.digest = true
    · rw [pullLayers, if_pos hc] at h
      obtain ⟨ihP, ihQ, ihS, ihT⟩ := ih cache cache' log h
      exact ⟨ihP, ihQ, ihS, ihT⟩
    · have hw : cache.wasmFile l.digest = false := by
        cases hx : cache.wasmFile l.digest
        · rfl
        · exact absurd (Or.inl hx) hc
      have hd : cache.dataFile l.digest = false := by
        cases hx : cache.dataFile l.digest
        · rfl
        · exact absurd (Or.inr hx) hc
      rw [pullLayers, if_neg hc] at h
      cases hblob : reg.blob l.digest with
      | none => rw [hblob] at h; simp at h
      | some bytes =>
        rw [hblob] at h
        simp only at h
        set cache1 := if l.mediaType = WASM_LAYER_MEDIA_TYPE then cache.writeWasm bytes l.digest
          else cache.writeData bytes l.digest with hcache1
        cases hrec : pullLayers reg cache1 ls with
        | error e => rw [hrec] at h; simp at h
        | ok p2 =>
          obtain ⟨c2, log'⟩ := p2
          rw [hrec] at h
          simp only [Except.ok.injEq, Prod.mk.injEq] at h
          obtain ⟨hcc, hlog⟩ := h
          subst hcc; subst hlog
          obtain ⟨ihP, ihQ, ihS, ihT⟩ := ih cache1 c2 log' hrec
          have hstep : ∀ d v,
              (lookupTable cache.wasm d = some v → lookupTable cache1.wasm d = some v) ∧
              (lookupTable cache.dataStore d = some v →
                lookupTable cache1.dataStore d = some v) := by
            intro d v
            rw [hcache1]
            by_cases hmt : l.mediaType = WASM_LAYER_MEDIA_TYPE
            · rw [if_pos hmt]; exact writeWasm_preserves cache bytes l.digest d v
            · rw [if_neg hmt]
              obtain ⟨h1, h2⟩ := writeData_preserves cache bytes l.digest d v
              exact ⟨h1, h2⟩
          have hstepQ : ∀ d, cache.wasmFile d = true ∨ cache.dataFile d = true →
              lookupTable cache1.wasm d = lookupTable cache.wasm d ∧
              lookupTable cache1.dataStore d = lookupTable cache.dataStore d := by
            intro d hdc
            have hne : l.digest ≠ d := by
              intro he
              subst he
              rcases hdc with h' | h'
              · rw [hw] at h'; cases h'
              · rw [hd] at h'; cases h'
            rw [hcache1]
            by_cases hmt : l.mediaType = WASM_LAYER_MEDIA_TYPE
            · rw [if_pos hmt]
              obtain ⟨h1, h2⟩ := writeWasm_other cache bytes l.digest d hne
              exact ⟨h1, by rw [h2]⟩
            · rw [if_neg hmt]
              obtain ⟨h1, h2⟩ := writeData_other cache bytes l.digest d hne
              exact ⟨by rw [h2], h1⟩
          have hmono : ∀ d, (cache.wasmFile d = true → cache1.wasmFile d = true) ∧
              (cache.dataFile d = true → cache1.dataFile d = true) := by
            intro d
            constructor
            · intro ht
              unfold Cache.wasmFile at ht ⊢
              rcases Option.isSome_iff_exists.mp ht with ⟨v, hv⟩
              rw [(hstep d v).1 hv]
              rfl
            · intro ht
              unfold Cache.dataFile at ht ⊢
              rcases Option.isSome_iff_exists.mp ht with ⟨v, hv⟩
              rw [(hstep d v).2 hv]
              rfl
          refine ⟨?_, ?_, ?_, ?_⟩
          · intro d v
            exact ⟨fun hv => (ihP d v).1 ((hstep d v).1 hv),
              fun hv => (ihP d v).2 ((hstep d v).2 hv)⟩
          · intro d hdc
            have hdc1 : cache1.wasmFile d = true ∨ cache1.dataFile d = true := by
              rcases hdc with h' | h'
              · exact Or.inl ((hmono d).1 h')
              · exact Or.inr ((hmono d).2 h')
            obtain ⟨hq1, hq2⟩ := ihQ d hdc1
            obtain ⟨hs1, hs2⟩ := hstepQ d hdc
            exact ⟨by rw [hq1, hs1], by rw [hq2, hs2]⟩
          · intro l' hl'
            rcases List.mem_cons.mp hl' with rfl | hl''
            · exact ⟨hw, hd⟩
            · obtain ⟨h1, h2⟩ := ihS l' hl''
              constructor
              · cases hx : cache.wasmFile l'.digest
                · rfl
                · rw [(hmono l'.digest).1 hx] at h1; cases h1
              · cases hx : cache.dataFile l'.digest
                · rfl
                · rw [(hmono l'.digest).2 hx] at h2; cases h2
          · intro l' hl'
            rcases List.mem_cons.mp hl' with rfl | hl''
            · refine ⟨bytes, hblob, ?_, ?_⟩
              · intro hmt
                have h1 : lookupTable cache1.wasm l'.digest = some bytes := by
                  rw [hcache1, if_pos hmt]
                  exact (writeWasm_self cache bytes l'.digest hw).1
                exact (ihP l'.digest bytes).1 h1
              · intro hmt
                have h1 : lookupTable cache1.dataStore l'.digest = some bytes := by
                  rw [hcache1, if_neg hmt]
                  exact (writeData_self cache bytes l'.digest hd).1
                exact (ihP l'.digest bytes).2 h1
            · exact ihT l' hl''

theorem pull_ok_pullLayers (reg : Registry) (a : AuthConfig) (docker : Option DockerCredential)
    (registry : Str) (cache : Cache) (res : PullResult)
    (h : pull reg a docker registry cache = .ok res) :
    ∃ m dgst, reg.manifest = some (m, dgst) ∧ res.manifestDoc = m ∧
      pullLayers reg cache m.layers = .ok (res.cache, res.fetched) := by
  obtain ⟨rc, rf, rm, rcfg⟩ := res
  unfold pull at h
  by_cases hr : reg.refValid = true
  · obtain ⟨cr, hcr⟩ := authResolve_ok a docker registry
    cases hm : reg.manifest with
    | none => simp [hr, hcr, hm] at h
    | some p =>
      obtain ⟨m, dgst⟩ := p
      cases hcfg : reg.blob m.configDigest with
      | none => simp [hr, hcr, hm, hcfg] at h
      | some cfgBytes =>
        cases hstr : bytesStr cfgBytes with
        | none => simp [hr, hcr, hm, hcfg, hstr] at h
        | some cfg =>
          cases hpl : pullLayers reg cache m.layers with
          | error e => simp [hr, hcr, hm, hcfg, hstr, hpl] at h
          | ok p2 =>
            obtain ⟨c2, log⟩ := p2
            simp only [hr, hcr, hm, hcfg, hstr, hpl, if_true, Except.ok.injEq,
              PullResult.mk.injEq] at h
            obtain ⟨h1, h2, h3, h4⟩ := h
            subst h1; subst h2; subst h3
            exact ⟨m, dgst, rfl, rfl, hpl⟩
  · simp [hr] at h

/-! ## Pull claim theorems -/

/-- C3: during pull, every layer listed in the fetched manifest whose digest is
already in either cache sub-store is skipped — no blob fetch happens for that
digest and its cache entries are unchanged — and a blob fetch happens only
for layers whose digest was in neither sub-store. -/
theorem c3_pull_skips_cached_layers (reg : Registry) (a : AuthConfig)
    (docker : Option DockerCredential) (registry : Str) (cache : Cache) (res : PullResult)
    (m : OciManifest) (dg : Str)
    (h : pull reg a docker registry cache = .ok res) (hm : reg.manifest = some (m, dg)) :
    (∀ l ∈ m.layers, cache.wasmFile l.digest = true ∨ cache.dataFile l.digest = true →
      (∀ l' ∈ res.fetched, l'.digest ≠ l.digest) ∧
      lookupTable res.cache.wasm l.digest = lookupTable cache.wasm l.digest ∧
      lookupTable res.cache.dataStore l.digest = lookupTable cache.dataStore l.digest) ∧
    (∀ l' ∈ res.fetched, cache.wasmFile l'.digest = false ∧ cache.dataFile l'.digest = false) := by
  obtain ⟨m', dg', hm', hdoc, hpl⟩ := pull_ok_pullLayers reg a docker registry cache res h
  rw [hm] at hm'
  obtain ⟨hm1, _⟩ := Prod.mk.injEq .. ▸ (Option.some.inj hm')
  subst hm1
  obtain ⟨_, hQ, hS, _⟩ := pullLayers_ok reg cache res.cache m.layers res.fetched hpl
  refine ⟨?_, hS⟩
  intro l hl hcached
  obtain ⟨hq1, hq2⟩ := hQ l.digest hcached
  refine ⟨?_, hq1, hq2⟩
  intro l' hl' he
  obtain ⟨hs1, hs2⟩ := hS l' hl'
  rcases hcached with h' | h'
  · rw [he, h'] at hs1; cases hs1
  · rw [he, h'] at hs2; cases hs2

/-- C3 witness: with digest `d1` pre-cached, pulling fetches nothing for `d1`
and leaves its entries unchanged. -/
theorem c3_pull_skips_cached_layers_witness :
    (∀ l' ∈ res0.fetched, l'.digest ≠ (⟨WASM_LAYER_MEDIA_TYPE, "d1".data⟩ : OciLayerDesc).digest) ∧
    lookupTable res0.cache.wasm "d1".data = lookupTable cache0.wasm "d1".data ∧
    lookupTable res0.cache.dataStore "d1".data = lookupTable cache0.dataStore "d1".data := by
  have h := (c3_pull_skips_cached_layers reg0 ⟨[]⟩ none "h".data cache0 res0
    (⟨"cfg".data, [⟨WASM_LAYER_MEDIA_TYPE, "d1".data⟩, ⟨"text/plain".data, "d2".data⟩]⟩)
    "md".data (by rfl) (by rfl)).1 ⟨WASM_LAYER_MEDIA_TYPE, "d1".data⟩
    (List.mem_cons_self _ _) (Or.inl (by rfl))
  exact h

/-- C6: every layer fetched during pull is stored by the closed binary
classification of its declared media type — the wasm-module media type into
the wasm sub-store, any other media type into the opaque-data sub-store —
with exactly the fetched bytes. -/
theorem c6_pull_classifies_fetched_layers (reg : Registry) (a : AuthConfig)
    (docker : Option DockerCredential) (registry : Str) (cache : Cache) (res : PullResult)
    (h : pull reg a docker registry cache = .ok res) :
    ∀ l ∈ res.fetched, ∃ bytes, reg.blob l.digest = some bytes ∧
      (l.mediaType = WASM_LAYER_MEDIA_TYPE →
        lookupTable res.cache.wasm l.digest = some bytes) ∧
      (l.mediaType ≠ WASM_LAYER_MEDIA_TYPE →
        lookupTable res.cache.dataStore l.digest = some bytes) := by
  obtain ⟨m, dgst, hm, hdoc, hpl⟩ := pull_ok_pullLayers reg a docker registry cache res h
  exact (pullLayers_ok reg cache res.cache m.layers res.fetched hpl).2.2.2

/-- C6 witness: the fetched `d2` layer (a non-wasm media type) lands in the
data sub-store with the fetched bytes. -/
theorem c6_pull_classifies_fetched_layers_witness :
    ∃ bytes, reg0.blob ("d2".data : Str) = some bytes ∧
      ((⟨"text/plain".data, "d2".data⟩ : OciLayerDesc).mediaType = WASM_LAYER_MEDIA_TYPE →
        lookupTable res0.cache.wasm "d2".data = some bytes) ∧
      ((⟨"text/plain".data, "d2".data⟩ : OciLayerDesc).mediaType ≠ WASM_LAYER_MEDIA_TYPE →
        lookupTable res0.cache.dataStore "d2".data = some bytes) := by
  exact c6_pull_classifies_fetched_layers reg0 ⟨[]⟩ none "h".data cache0 res0 (by rfl)
    ⟨"text/plain".data, "d2".data⟩ (by decide)

end SpinOci
